import Mathlib

/-!
Shallow embedding of the HVAC sizing core (`hvac_core.py`) of the
Ambient-Intelligence-Project repository, together with proofs settling the
frozen claims about it.

Modelling conventions:
* Python floats are embedded as exact rationals (`ℚ`); the conservation /
  tolerance claims are settled by exact arithmetic.
* Python `int` becomes `Int`; loop counts such as `range(n)` become
  `List.range n.toNat` (Python `range` of a non-positive bound is empty,
  matching `Int.toNat`).
* Fallible code (Python exceptions such as `ValueError` from `int(...)`)
  returns `Option`: `none` models a raised exception.
* Functions that mutate `PowerConsumer` objects in place
  (`assign_dual_feeds`, `_balance_primary_strings`, `_clamp_primary_strings`)
  are embedded as functions returning the updated unit list; read-only
  traversals (`_simulate_string_failure`, `build_power_string_report`) thread
  the traversed collection through their fold and return it alongside the
  result, so that absence of mutation is a provable statement.
-/

set_option maxHeartbeats 1600000

/-- The `RedundancyConfig` dataclass: container describing required and total
counts.  Its `__post_init__` clamps `n_required` to `≥ 1` and `n_extra` to
`≥ 0`; `RedundancyConfig.make` models construction (the only way the Python
class is ever instantiated). -/
structure RedundancyConfig where
  n_required : Int
  n_extra : Int
  deriving Repr, DecidableEq

/-- Construction of a `RedundancyConfig`, including the `__post_init__`
clamping. -/
def RedundancyConfig.make (n_required n_extra : Int) : RedundancyConfig :=
  ⟨max 1 n_required, max 0 n_extra⟩

/-- The value `n_total = n_required + n_extra`, computed in `__post_init__` from the
clamped fields. -/
def RedundancyConfig.n_total (c : RedundancyConfig) : Int :=
  c.n_required + c.n_extra

/-- The dynamically-typed argument of `parse_redundancy`: `None`, a numeric
value (an `int`, or a `float` already truncated by `int(text)`), or a string. -/
inductive PyVal where
  | none
  | num (n : Int)
  | str (s : String)
  deriving Repr, DecidableEq

/-- Value of a list of characters as a base-10 numeral, failing on any
non-digit.  An empty list yields `some 0`; the caller rejects it. -/
def digitsVal (cs : List Char) : Option Nat :=
  cs.foldl
    (fun acc c =>
      match acc with
      | Option.none => Option.none
      | some n => if c.isDigit then some (n * 10 + (c.toNat - 48)) else Option.none)
    (some 0)

/-- Python `int(s)` on the space-stripped text `parse_redundancy` builds:
an optional sign followed by a non-empty run of decimal digits; anything
else raises `ValueError` (`none`). -/
def parseIntPy (cs : List Char) : Option Int :=
  let signRest : Int × List Char :=
    match cs with
    | '+' :: r => (1, r)
    | '-' :: r => (-1, r)
    | r => (1, r)
  if signRest.2.isEmpty then Option.none
  else (digitsVal signRest.2).map (fun n => signRest.1 * (n : Int))

/-- Split a character list on every occurrence of `'+'` (the pieces of
Python `s.split("+")`); `parse_redundancy` re-joins all but the first piece
to model `s.split("+", 1)`. -/
def splitPlus : List Char → List Char → List (List Char)
  | [], acc => [acc.reverse]
  | c :: rest, acc =>
    if c = '+' then acc.reverse :: splitPlus rest [] else splitPlus rest (c :: acc)

/-- Function `parse_redundancy`: parse strings like `"3+1"` or numeric values into a
config.  `None` and numeric inputs short-circuit; otherwise spaces are
removed, the text is split once on the first `'+'` when present, and the
pieces go through `int(...)` (`parseIntPy`); a parse failure propagates as
`none`. -/
def parse_redundancy : PyVal → Option RedundancyConfig
  | PyVal.none => some (RedundancyConfig.make 1 0)
  | PyVal.num n => some (RedundancyConfig.make n 0)
  | PyVal.str t =>
    let s := t.toList.filter (fun c => c ≠ ' ')
    match splitPlus s [] with
    | [] => Option.none
    | [only] => (parseIntPy only).map (fun n => RedundancyConfig.make n 0)
    | req :: rest =>
      match parseIntPy req, parseIntPy (List.intercalate ['+'] rest) with
      | some r, some e => some (RedundancyConfig.make r e)
      | _, _ => Option.none

/-- Class `PowerConsumer` and its four subclasses, flattened into one record: the
subclasses only add a kind-specific capacity attribute (`design_capacity_kW`,
`design_hydraulic_kW`, `evap_capacity_kW`) — here `capacity_kW` — and, for
CRAH and IT-row units, a `whitespace_id`. -/
structure PowerConsumer where
  id : Int
  peak_kW : ℚ
  normal_kW : ℚ
  kind : String
  primary_string : Option Int
  secondary_string : Option Int
  capacity_kW : Option ℚ
  whitespace_id : Option Int
  deriving Repr, DecidableEq

/-- Constructor `PowerConsumer.__init__`: clamps `peak_kW` and `normal_kW` to `≥ 0` and
leaves both feed assignments unset. -/
def PowerConsumer.make (idx : Int) (peak_kW normal_kW : ℚ) (kind : String) :
    PowerConsumer :=
  ⟨idx, max 0 peak_kW, max 0 normal_kW, kind, Option.none, Option.none,
    Option.none, Option.none⟩

/-- Constructor `CRAHUnit.__init__`. -/
def CRAHUnit.make (idx : Int) (cap_kW peak_kW normal_kW : ℚ)
    (whitespace_id : Option Int) : PowerConsumer :=
  { PowerConsumer.make idx peak_kW normal_kW "CRAH" with
      capacity_kW := some cap_kW, whitespace_id := whitespace_id }

/-- Constructor `PumpUnit.__init__`. -/
def PumpUnit.make (idx : Int) (hyd_kW peak_kW normal_kW : ℚ) : PowerConsumer :=
  { PowerConsumer.make idx peak_kW normal_kW "PUMP" with
      capacity_kW := some hyd_kW }

/-- Constructor `ChillerUnit.__init__`. -/
def ChillerUnit.make (idx : Int) (evap_cap_kW peak_kW normal_kW : ℚ) :
    PowerConsumer :=
  { PowerConsumer.make idx peak_kW normal_kW "CHLR" with
      capacity_kW := some evap_cap_kW }

/-- Constructor `ITRowUnit.__init__`: one IT row worth of load within a whitespace;
`peak_kW = normal_kW = load_kW`. -/
def ITRowUnit.make (idx : Int) (whitespace_id : Int) (load_kW : ℚ) :
    PowerConsumer :=
  { PowerConsumer.make idx load_kW load_kW "ITR" with
      whitespace_id := some whitespace_id }

/-- The `ITWhiteSpace` dataclass. -/
structure ITWhiteSpace where
  id : Int
  it_load_kW : ℚ
  row_ids : List Int
  deriving Repr, DecidableEq

/-- Function `distribute_it_load`: split the IT load per whitespace and per IT row.
Whitespaces are numbered `1..W`; each receives `row_cfg.n_total` rows with
ids numbered sequentially across all whitespaces; every row carries
`(L/W)/n_required` of load. -/
def distribute_it_load (IT_kW : ℚ) (n_whitespaces : Int)
    (row_cfg : RedundancyConfig) : List ITWhiteSpace × List PowerConsumer :=
  let n_ws := max 1 n_whitespaces
  let total_load := max 0 IT_kW
  let load_per_ws := total_load / (n_ws : ℚ)
  let load_per_row :=
    if 0 < row_cfg.n_required then load_per_ws / (row_cfg.n_required : ℚ) else 0
  let r_tot := row_cfg.n_total.toNat
  let white_spaces :=
    (List.range n_ws.toNat).map (fun (w : Nat) =>
      ITWhiteSpace.mk ((w : Int) + 1) load_per_ws
        ((List.range r_tot).map (fun (k : Nat) => (w : Int) * (r_tot : Int) + (k : Int) + 1)))
  let rows :=
    (List.range n_ws.toNat).flatMap (fun (w : Nat) =>
      (List.range r_tot).map (fun (k : Nat) =>
        ITRowUnit.make ((w : Int) * (r_tot : Int) + (k : Int) + 1) ((w : Int) + 1)
          load_per_row))
  (white_spaces, rows)

/-- Function `_size_crah_single`: size CRAH units for one thermal load.  Returns
`(units, Q_cwl_kW, P_fan_total_kW)`; a non-positive load short-circuits to
`([], 0, 0)`. -/
def sizeCrahSingle (IT_kW dT_air_K SP_air_Pa eta_fan eta_motor : ℚ)
    (crah_cfg : RedundancyConfig) : List PowerConsumer × ℚ × ℚ :=
  if IT_kW ≤ 0 then ([], 0, 0)
  else
    let rho_air : ℚ := 1.2
    let cp_air : ℚ := 1005
    let dT := max (1e-6) dT_air_K
    let ef := max (1e-6) eta_fan
    let em := max (1e-6) eta_motor
    let mdot := IT_kW * 1000 / (cp_air * dT)
    let Vdot := mdot / rho_air
    let eta_tot := max (1e-3) (ef * em)
    let P_fan_W := Vdot * SP_air_Pa / eta_tot
    let P_fan_total_kW := P_fan_W / 1000
    let N_req := crah_cfg.n_required
    let N_tot := crah_cfg.n_total
    let fan_peak := P_fan_total_kW / (N_req : ℚ)
    let fan_norm := P_fan_total_kW / (N_tot : ℚ)
    let cap_per := IT_kW / (N_req : ℚ) + fan_peak
    let units :=
      (List.range N_tot.toNat).map (fun (i : Nat) =>
        CRAHUnit.make ((i : Int) + 1) cap_per fan_peak fan_norm Option.none)
    (units, IT_kW + P_fan_total_kW, P_fan_total_kW)

/-- Function `size_crah`: when a (truthy, i.e. non-empty) whitespace list is given,
each whitespace is sized independently on its own load, units are renumbered
sequentially and stamped with the whitespace id, and the thermal / power
totals are summed; otherwise a single pass on the total load is taken. -/
def size_crah (IT_kW dT_air_K SP_air_Pa eta_fan eta_motor : ℚ)
    (crah_cfg : RedundancyConfig) (white_spaces : List ITWhiteSpace) :
    List PowerConsumer × ℚ × ℚ :=
  if white_spaces.isEmpty then
    sizeCrahSingle IT_kW dT_air_K SP_air_Pa eta_fan eta_motor crah_cfg
  else
    let per_ws := white_spaces.map (fun ws =>
      (ws, sizeCrahSingle ws.it_load_kW dT_air_K SP_air_Pa eta_fan eta_motor crah_cfg))
    let renumbered :=
      ((per_ws.flatMap (fun p => p.2.1.map (fun u => (p.1, u)))).mapIdx
        (fun i p => { p.2 with id := (i : Int) + 1, whitespace_id := some p.1.id }))
    (renumbered,
      (per_ws.map (fun p => p.2.2.1)).sum,
      (per_ws.map (fun p => p.2.2.2)).sum)

/-- Function `size_pumps`: returns `(units, Q_to_chiller_kW, P_pump_total_kW)`; a
non-positive load passes the input load through untouched with no units. -/
def size_pumps (Q_cwl_kW dT_water_K head_m eta_pump eta_motor : ℚ)
    (pump_cfg : RedundancyConfig) : List PowerConsumer × ℚ × ℚ :=
  if Q_cwl_kW ≤ 0 then ([], Q_cwl_kW, 0)
  else
    let rho_w : ℚ := 1000
    let cp_w : ℚ := 4180
    let g : ℚ := 9.81
    let mdot_w := if dT_water_K ≤ 0 then 0 else Q_cwl_kW * 1000 / (cp_w * dT_water_K)
    let Vdot_w := mdot_w / rho_w
    let head := max 0 head_m
    let P_hyd_W := rho_w * g * head * Vdot_w
    let P_hyd_kW := P_hyd_W / 1000
    let eta_tot := max (1e-3) (eta_pump * eta_motor)
    let P_pump_total_kW := if 0 < head ∧ 0 < mdot_w then P_hyd_kW / eta_tot else 0
    let N_req := pump_cfg.n_required
    let N_tot := pump_cfg.n_total
    let motor_peak := P_pump_total_kW / (N_req : ℚ)
    let motor_norm := P_pump_total_kW / (N_tot : ℚ)
    let hyd_per := P_hyd_kW / (N_req : ℚ)
    let units :=
      (List.range N_tot.toNat).map (fun (i : Nat) =>
        PumpUnit.make ((i : Int) + 1) hyd_per motor_peak motor_norm)
    (units, Q_cwl_kW + P_pump_total_kW, P_pump_total_kW)

/-- Function `size_chillers`: returns `(units, Q_cond_kW, P_ch_total_kW)`; a
non-positive load or COP passes the input load through untouched with no
units. -/
def size_chillers (Q_evap_kW COP : ℚ) (ch_cfg : RedundancyConfig) :
    List PowerConsumer × ℚ × ℚ :=
  if Q_evap_kW ≤ 0 ∨ COP ≤ 0 then ([], Q_evap_kW, 0)
  else
    let P_ch_total_kW := Q_evap_kW / COP
    let N_req := ch_cfg.n_required
    let N_tot := ch_cfg.n_total
    let comp_peak := P_ch_total_kW / (N_req : ℚ)
    let comp_norm := P_ch_total_kW / (N_tot : ℚ)
    let evap_cap := Q_evap_kW / (N_req : ℚ)
    let units :=
      (List.range N_tot.toNat).map (fun (i : Nat) =>
        ChillerUnit.make ((i : Int) + 1) evap_cap comp_peak comp_norm)
    (units, Q_evap_kW + P_ch_total_kW, P_ch_total_kW)

/-- Stable insertion step for descending sort on `normal_kW`: insert before
the first strictly smaller element, so ties keep their original order —
the behaviour of Python `sorted(key=..., reverse=True)`. -/
def insertByNormalDesc (u : PowerConsumer) : List PowerConsumer → List PowerConsumer
  | [] => [u]
  | v :: rest =>
    if v.normal_kW < u.normal_kW then u :: v :: rest
    else v :: insertByNormalDesc u rest

/-- Python `sorted(units, key=lambda u: u.normal_kW, reverse=True)`. -/
def sortByNormalDesc (l : List PowerConsumer) : List PowerConsumer :=
  l.foldr insertByNormalDesc []

/-- Index of the first minimum of the remaining loads: the accumulator keeps
the best index and value seen so far, `i` is the position of the head of the
remaining list. -/
def argminIdxAux : List ℚ → Nat → ℚ → Nat → Nat
  | [], best, _, _ => best
  | x :: rest, best, bestVal, i =>
    if x < bestVal then argminIdxAux rest i x (i + 1)
    else argminIdxAux rest best bestVal (i + 1)

/-- Python `min(range(len(loads)), key=lambda i: loads[i])`: index of the first
minimal entry (Python `min` keeps the earliest of tied keys). -/
def argminIdx : List ℚ → Nat
  | [] => 0
  | x :: rest => argminIdxAux rest 0 x 1

/-- One iteration of the `_balance_primary_strings` loop: place the unit on
the currently least-loaded bucket (lowest index on ties), stamp its primary
string and clear its secondary.  The state is the per-bucket load vector
together with the units processed so far (carrying their new assignments). -/
def balStep (st : List ℚ × List PowerConsumer) (u : PowerConsumer) :
    List ℚ × List PowerConsumer :=
  let idx := argminIdx st.1
  (st.1.set idx (st.1.getD idx 0 + u.normal_kW),
   st.2 ++ [{ u with
              primary_string := some ((idx : Int) + 1)
              secondary_string := Option.none }])

/-- Function `_balance_primary_strings`: longest-processing-time-first greedy balance
over `max 1 active_strings` buckets.  The Python function mutates the units
in place; here it returns the final bucket loads and the unit pool with the
new primary assignments. -/
def _balance_primary_strings (units : List PowerConsumer) (active_strings : Int) :
    List ℚ × List PowerConsumer :=
  let a := (max 1 active_strings).toNat
  (sortByNormalDesc units).foldl balStep (List.replicate a 0, [])

/-- Function `_clamp_primary_strings`: force every unit's primary into
`[1, max 1 total_strings]`, defaulting a missing or sub-1 primary to `1`. -/
def _clamp_primary_strings (units : List PowerConsumer) (total_strings : Int) :
    List PowerConsumer :=
  let t := max 1 total_strings
  units.map (fun u =>
    match u.primary_string with
    | Option.none => { u with primary_string := some 1 }
    | some p =>
      if p < 1 then { u with primary_string := some 1 }
      else if t < p then { u with primary_string := some t }
      else u)

/-- The expression `getattr(u, "primary_string", 1) or 1` used by the
aggregator's bucketing loop and the failure simulator: a missing (`None`) or
zero primary reads as `1` (Python `0 or 1 == 1`). -/
def effPrimary (u : PowerConsumer) : Int :=
  match u.primary_string with
  | Option.none => 1
  | some p => if p = 0 then 1 else p

/-- The label `f"{u.kind}{u.id}"`. -/
def PowerConsumer.label (u : PowerConsumer) : String :=
  u.kind ++ toString u.id

/-- The `StringSummary` dataclass. -/
structure StringSummary where
  id : Int
  normal_load_kW : ℚ
  design_capacity_kW : ℚ
  unit_ids : List String
  units : List PowerConsumer
  deriving Repr, DecidableEq

/-- The `PowerStringAggregate` dataclass. -/
structure PowerStringAggregate where
  strings : List StringSummary
  total_peak_kW : ℚ
  total_normal_kW : ℚ
  string_normal_kW : List ℚ
  string_design_cap_kW : List ℚ
  config : RedundancyConfig
  total_strings : Int
  active_strings : Int
  units : List PowerConsumer
  deriving Repr, DecidableEq

/-- The bucket index `min(max(p - 1, 0), N_tot - 1)` computed from
`effPrimary` in the aggregator's summation loop. -/
def bucketIdx (N_tot : Int) (u : PowerConsumer) : Int :=
  min (max (effPrimary u - 1) 0) (N_tot - 1)

/-- Highest primary or secondary string id already stamped on any unit
(`max_string_id` in `aggregate_power_strings`). -/
def maxStringId (units : List PowerConsumer) : Int :=
  units.foldl
    (fun m u =>
      let m1 := match u.primary_string with
        | some p => max m p
        | Option.none => m
      match u.secondary_string with
      | some s => max m1 s
      | Option.none => m1)
    0

/-- The `i`-th bucket accumulated by the aggregator's loop over `all_units`:
the units, in pool order, whose clamped bucket index is `i`. -/
def bucketUnits (units : List PowerConsumer) (N_tot : Int) (i : Nat) :
    List PowerConsumer :=
  units.filter (fun u => decide (bucketIdx N_tot u = (i : Int)))

/-- Function `aggregate_power_strings`.  The textual `redundancy_strings` form goes
through `parse_redundancy` before this point; here the already-built config
is taken as argument.  An empty pool short-circuits to the all-zero
aggregate; otherwise the pool is balanced (auto) or clamped (manual), the
totals are summed, and each of the `N_tot` string summaries collects its
bucket of units. -/
def aggregate_power_strings (crah_units pump_units chiller_units it_rows :
    List PowerConsumer) (redundancy_strings : RedundancyConfig)
    (auto_balance : Bool) : PowerStringAggregate :=
  let cfg_strings := redundancy_strings
  let all_units := it_rows ++ crah_units ++ pump_units ++ chiller_units
  if all_units.length = 0 then
    ⟨[], 0, 0, [], [], cfg_strings, 0, 0, []⟩
  else
    let N_req0 := cfg_strings.n_required
    let N_tot := max (max cfg_strings.n_total (maxStringId all_units)) 1
    let N_req := if N_tot < N_req0 then N_tot else N_req0
    let active_strings := max 1 N_req
    let units2 :=
      if auto_balance then (_balance_primary_strings all_units active_strings).2
      else _clamp_primary_strings all_units N_tot
    let total_peak_kW := (units2.map (fun u => u.peak_kW)).sum
    let total_normal_kW := (units2.map (fun u => u.normal_kW)).sum
    let cap_per := if 0 < N_req then total_peak_kW / (N_req : ℚ) else 0
    let loads := (List.range N_tot.toNat).map (fun (i : Nat) =>
      ((bucketUnits units2 N_tot i).map (fun u => u.normal_kW)).sum)
    let strings := (List.range N_tot.toNat).map (fun (i : Nat) =>
      StringSummary.mk ((i : Int) + 1)
        (((bucketUnits units2 N_tot i).map (fun u => u.normal_kW)).sum)
        cap_per
        ((bucketUnits units2 N_tot i).map PowerConsumer.label)
        (bucketUnits units2 N_tot i))
    ⟨strings, total_peak_kW, total_normal_kW, loads,
      List.replicate N_tot.toNat cap_per, cfg_strings, N_tot, active_strings,
      units2⟩

/-- Mark the first `k` units with primary `s1` and no secondary yet —
exactly the `singles[i] for i in range(excess)` slice of the dual-feed
loop, since `singles` lists the bucket's unmarked units in pool order. -/
def setSecondaries (sec s1 : Int) : Int → List PowerConsumer → List PowerConsumer
  | _, [] => []
  | k, u :: rest =>
    if 0 < k ∧ u.primary_string = some s1 ∧ u.secondary_string = Option.none then
      { u with secondary_string := some sec } :: setSecondaries sec s1 (k - 1) rest
    else
      u :: setSecondaries sec s1 k rest

/-- Body of the dual-feed loop for string index `s` (0-based): collect the
bucket's still-single-fed units, and mark the excess beyond the allowance
with a secondary feed on the next string (wrapping). -/
def dualStep (N_strings L_max : Int) (cur : List PowerConsumer) (s : Nat) :
    List PowerConsumer :=
  let singles := cur.filter (fun u =>
    decide (u.primary_string = some ((s : Int) + 1)) &&
    decide (u.secondary_string = Option.none))
  let excess : Int := (singles.length : Int) - L_max
  if 0 < excess then
    setSecondaries (((s : Int) + 1) % N_strings + 1) ((s : Int) + 1) excess cur
  else cur

/-- Function `assign_dual_feeds`: round-robin primaries, then give secondary feeds
(pointing to the next string, wrapping) to each bucket's units in excess of
the single-feed allowance `L_max = max(0, N_tot - N_req)`.  Returns the
updated pool (the Python function mutates it in place) and the per-unit
dual-fed flags.  `%` models Python `%`, which agrees with `Int.emod` for the
positive `N_strings` the guard admits. -/
def assign_dual_feeds (units : List PowerConsumer) (N_strings N_req : Int) :
    List PowerConsumer × List Bool :=
  if units.length = 0 ∨ N_strings = 0 then
    (units, List.replicate units.length false)
  else
    let base := units.mapIdx (fun i u =>
      { u with
        primary_string := some ((i : Int) % N_strings + 1)
        secondary_string := Option.none })
    let L_max : Int := max 0 ((units.length : Int) - N_req)
    let final := (List.range N_strings.toNat).foldl
      (dualStep N_strings L_max) base
    (final, final.map (fun u => u.secondary_string.isSome))

/-- Add `x` at key `k` of an association list with unique keys (a Python
dict): the first matching entry is updated, a missing key leaves the list
unchanged (the simulator always tests membership first). -/
def assocAdd : List (Int × ℚ) → Int → ℚ → List (Int × ℚ)
  | [], _, _ => []
  | p :: rest, k, x =>
    if p.1 = k then (p.1, p.2 + x) :: rest else p :: assocAdd rest k x

/-- Lookup in the loads dict, defaulting to `0` (the simulator only reads
keys it initialised). -/
def assocGet (l : List (Int × ℚ)) (k : Int) : ℚ :=
  match l.find? (fun p => decide (p.1 = k)) with
  | some p => p.2
  | Option.none => 0

/-- Python `target in loads`: membership among the dict's keys. -/
def hasKey (l : List (Int × ℚ)) (k : Int) : Bool :=
  l.any (fun p => decide (p.1 = k))

/-- Python `min(survivors, key=lambda sid: loads[sid])`: the earliest survivor with
the least accumulated load (Python `min` keeps the first of tied keys, and
`survivors` is in ascending order, so ties break to the lowest id). -/
def argminSurvivor (survivors : List Int) (loads : List (Int × ℚ)) : Int :=
  match survivors with
  | [] => 0
  | s :: rest =>
    rest.foldl
      (fun best sid =>
        if assocGet loads sid < assocGet loads best then sid else best)
      s

/-- The failure-simulation result dict of the in-range branch.  `lost_raw`
records the unit objects whose labels the Python code appends to
`lost_units`; the returned `lost_units` field is exactly their labels. -/
structure FailureResult where
  failed_string : Int
  redistributed_normal_kW : List (Int × ℚ)
  lost_raw : List PowerConsumer
  lost_units : List String
  design_capacity_per_string_kW : ℚ
  deriving Repr, DecidableEq

/-- Outcome of `_simulate_string_failure`: either the out-of-range
diagnostic dict or the computed redistribution. -/
inductive FailureOutcome where
  | outOfRange (failed_string : Int) (message : String)
  | result (r : FailureResult)
  deriving Repr, DecidableEq

/-- Body of the simulator's per-unit loop.  The state is
`(loads, lost, seen)`: the survivor loads dict, the lost units, and the
units traversed so far — each unit is emitted back unchanged, mirroring
that the loop reads but never writes it. -/
def failStep (failed : Int) (survivors : List Int)
    (st : List (Int × ℚ) × List PowerConsumer × List PowerConsumer)
    (u : PowerConsumer) :
    List (Int × ℚ) × List PowerConsumer × List PowerConsumer :=
  let primary := effPrimary u
  let secondaryIn : Bool :=
    match u.secondary_string with
    | some s => decide (s ∈ survivors)
    | Option.none => false
  let target : Option Int :=
    if primary = failed then
      if secondaryIn then u.secondary_string
      else if survivors.length ≠ 0 then some (argminSurvivor survivors st.1)
      else Option.none
    else some primary
  match target with
  | some t =>
    if hasKey st.1 t then (assocAdd st.1 t u.normal_kW, st.2.1, st.2.2 ++ [u])
    else (st.1, st.2.1 ++ [u], st.2.2 ++ [u])
  | Option.none => (st.1, st.2.1 ++ [u], st.2.2 ++ [u])

/-- Function `_simulate_string_failure`.  The second component is the unit pool as
traversed by the loop (or untouched by the early return), making the
function's read-only behaviour on the aggregate's units explicit. -/
def _simulate_string_failure (aggregate : PowerStringAggregate)
    (failed_string : Int) : FailureOutcome × List PowerConsumer :=
  if failed_string < 1 ∨ aggregate.total_strings < failed_string then
    (FailureOutcome.outOfRange failed_string
      "Failed string outside configured range.", aggregate.units)
  else
    let survivors := (List.range aggregate.total_strings.toNat).filterMap
      (fun (i : Nat) =>
        if (i : Int) + 1 ≠ failed_string then some ((i : Int) + 1)
        else Option.none)
    let init : List (Int × ℚ) × List PowerConsumer × List PowerConsumer :=
      (survivors.map (fun sid => (sid, 0)), [], [])
    let final := aggregate.units.foldl (failStep failed_string survivors) init
    let remaining_required :=
      max 1 (min aggregate.active_strings (survivors.length : Int))
    let new_cap :=
      if 0 < remaining_required
      then aggregate.total_peak_kW / (remaining_required : ℚ) else 0
    (FailureOutcome.result
      ⟨failed_string, final.1, final.2.1, final.2.1.map PowerConsumer.label,
        new_cap⟩,
      final.2.2)

/-- Function `_component_capacity`: the kind-specific capacity attribute when the
unit has one, else `peak_kW` (every `PowerConsumer` has `peak_kW`, so the
trailing `return None` of the Python helper is unreachable). -/
def _component_capacity (unit : PowerConsumer) : Option ℚ :=
  match unit.capacity_kW with
  | some c => some c
  | Option.none => some unit.peak_kW

/-- The `UnitSummary` dataclass. -/
structure UnitSummary where
  label : String
  kind : String
  unit_id : Int
  normal_kW : ℚ
  peak_kW : ℚ
  capacity_kW : Option ℚ
  whitespace_id : Option Int
  deriving Repr, DecidableEq

/-- The `StringReportRow` dataclass. -/
structure StringReportRow where
  string_id : Int
  normal_load_kW : ℚ
  design_capacity_kW : ℚ
  utilization : ℚ
  components : List UnitSummary
  deriving Repr, DecidableEq

/-- The `PowerStringReport` dataclass. -/
structure PowerStringReport where
  table : List StringReportRow
  failure_case : Option FailureOutcome
  deriving Repr, DecidableEq

/-- One report row: project every member unit of the summary into a
`UnitSummary`, echoing each traversed unit back unchanged (second
component), and compute the utilization ratio. -/
def reportRowOf (summary : StringSummary) : StringReportRow × StringSummary :=
  let traversed := summary.units.foldl
    (fun (acc : List UnitSummary × List PowerConsumer) unit =>
      (acc.1 ++ [UnitSummary.mk unit.label unit.kind unit.id unit.normal_kW
        unit.peak_kW (_component_capacity unit) unit.whitespace_id],
       acc.2 ++ [unit]))
    ([], [])
  let utilization :=
    if 0 < summary.design_capacity_kW
    then summary.normal_load_kW / summary.design_capacity_kW else 0
  (StringReportRow.mk summary.id summary.normal_load_kW
     summary.design_capacity_kW utilization traversed.1,
   { summary with units := traversed.2 })

/-- Function `build_power_string_report`.  The second component re-assembles the
aggregate from the traversed summaries, making the builder's read-only
behaviour explicit. -/
def build_power_string_report (aggregate : PowerStringAggregate)
    (failed_string : Option Int) : PowerStringReport × PowerStringAggregate :=
  let rowsStrings := aggregate.strings.foldl
    (fun (acc : List StringReportRow × List StringSummary) summary =>
      let rs := reportRowOf summary
      (acc.1 ++ [rs.1], acc.2 ++ [rs.2]))
    ([], [])
  let failure_case :=
    match failed_string with
    | some f => some (_simulate_string_failure aggregate f).1
    | Option.none => Option.none
  (PowerStringReport.mk rowsStrings.1 failure_case,
   { aggregate with strings := rowsStrings.2 })

/-! Shared helper lemmas. -/

/-- Sum over `List.range` as a `Finset.range` sum. -/
theorem rangeMapSum {M : Type} [AddCommMonoid M] (n : Nat) (f : Nat → M) :
    ((List.range n).map f).sum = ∑ i ∈ Finset.range n, f i := by
  induction n with
  | zero => simp
  | succ n ih =>
    rw [List.range_succ, List.map_append, List.sum_append, Finset.sum_range_succ,
      ih]
    simp

/-- Summing per-bucket filtered sums over all buckets recovers the whole
sum, provided every element lands in some bucket below `N`. -/
theorem sum_filter_partition {α M : Type} [AddCommMonoid M] (l : List α)
    (f : α → Int) (g : α → M) (N : Nat)
    (h : ∀ a ∈ l, ∃ i : Nat, i < N ∧ f a = (i : Int)) :
    ((List.range N).map (fun (i : Nat) =>
      ((l.filter (fun a => decide (f a = (i : Int)))).map g).sum)).sum
      = (l.map g).sum := by
  induction l with
  | nil => simp
  | cons a l ih =>
    have ha := h a (List.mem_cons_self a l)
    obtain ⟨j, hj, hfa⟩ := ha
    have key : ∀ i : Nat,
        (((a :: l).filter (fun x => decide (f x = (i : Int)))).map g).sum
          = (if i = j then g a else 0)
            + ((l.filter (fun x => decide (f x = (i : Int)))).map g).sum := by
      intro i
      rw [List.filter_cons]
      by_cases hcase : f a = (i : Int)
      · have hij : i = j := by
          have : (j : Int) = (i : Int) := by rw [← hfa, hcase]
          exact_mod_cast this.symm
        simp [hcase, hij]
      · have hij : ¬ i = j := by
          intro hk
          subst hk
          exact hcase hfa
        simp [hcase, hij]
    calc ((List.range N).map (fun (i : Nat) =>
            (((a :: l).filter (fun x => decide (f x = (i : Int)))).map g).sum)).sum
        = ∑ i ∈ Finset.range N, ((if i = j then g a else 0)
            + ((l.filter (fun x => decide (f x = (i : Int)))).map g).sum) := by
          rw [rangeMapSum]
          exact Finset.sum_congr rfl (fun i _ => key i)
      _ = (∑ i ∈ Finset.range N, (if i = j then g a else 0))
            + ∑ i ∈ Finset.range N,
                ((l.filter (fun x => decide (f x = (i : Int)))).map g).sum := by
          rw [Finset.sum_add_distrib]
      _ = g a + (l.map g).sum := by
          rw [Finset.sum_ite_eq' (Finset.range N) j (fun _ => g a)]
          rw [← rangeMapSum]
          rw [ih (fun x hx => h x (List.mem_cons_of_mem a hx))]
          simp [Finset.mem_range.mpr hj]
      _ = ((a :: l).map g).sum := by simp

/-- Sum of a constant map over a list. -/
theorem sum_map_const_q {α : Type} (l : List α) (c : ℚ) :
    (l.map (fun _ => c)).sum = (l.length : ℚ) * c := by
  induction l with
  | nil => simp
  | cons a l ih =>
    simp [ih]
    ring

/-- Sum of a map over a `flatMap`, stage by stage. -/
theorem sum_map_flatMap {α β : Type} (l : List α) (f : α → List β) (g : β → ℚ) :
    ((l.flatMap f).map g).sum = (l.map (fun a => ((f a).map g).sum)).sum := by
  induction l with
  | nil => simp
  | cons a l ih => simp [List.map_append, List.sum_append, ih]

/-- A list's length as the sum of ones. -/
theorem sum_map_one_nat {α : Type} (l : List α) :
    (l.map (fun _ => (1 : Nat))).sum = l.length := by
  induction l with
  | nil => rfl
  | cons a l ih =>
    simp only [List.map_cons, List.sum_cons, List.length_cons, ih]
    omega

/-! Claim C8: `parse_redundancy` on missing / empty input. -/

/-- C8 counterexample: on the empty string `parse_redundancy` raises
(`int("")` is a `ValueError`), instead of returning the `(1, 0)` default the
claim asserts. -/
theorem parse_redundancy_empty_counterexample :
    parse_redundancy (PyVal.str "") = Option.none := by decide

/-- C8 (amended): a missing input (`None`) defaults to
`n_required = 1, n_extra = 0` without raising, but the empty string raises a
parse error and produces no config. -/
theorem parse_redundancy_missing_default :
    parse_redundancy PyVal.none = some (RedundancyConfig.mk 1 0) ∧
    parse_redundancy (PyVal.str "") = Option.none := by decide

/-! Claim C4: sizers on non-positive upstream load. -/

/-- C4 counterexample: for a strictly negative upstream load the CRAH sizer
returns a downstream thermal value of `0`, not the pass-through value equal
to its input that the claim asserts. -/
theorem crah_nonpositive_counterexample :
    (sizeCrahSingle (-1) 10 300 (6/10) (19/20) (RedundancyConfig.make 3 1)).2.1
      = 0 ∧
    ¬ (sizeCrahSingle (-1) 10 300 (6/10) (19/20) (RedundancyConfig.make 3 1)).2.1
      = -1 := by decide

/-- C4 (amended): each sizer degrades to an empty unit list on non-positive
upstream load (or non-positive COP for the chiller) without any error;
`size_pumps` and `size_chillers` pass the input thermal value through, while
the CRAH stage returns a downstream value of `0` (equal to its input only
when the input is exactly `0`). -/
theorem sizers_nonpositive_amended (Qc Qp Qe COP dT SP ef em dTw head ep epm : ℚ)
    (cfgc cfgp cfge : RedundancyConfig) (hc : Qc ≤ 0) (hp : Qp ≤ 0)
    (he : Qe ≤ 0 ∨ COP ≤ 0) :
    sizeCrahSingle Qc dT SP ef em cfgc = ([], 0, 0) ∧
    size_crah Qc dT SP ef em cfgc [] = ([], 0, 0) ∧
    size_pumps Qp dTw head ep epm cfgp = ([], Qp, 0) ∧
    size_chillers Qe COP cfge = ([], Qe, 0) := by
  refine ⟨?_, ?_, ?_, ?_⟩
  · unfold sizeCrahSingle
    rw [if_pos hc]
  · unfold size_crah
    simp only [List.isEmpty_nil, if_true]
    unfold sizeCrahSingle
    rw [if_pos hc]
  · unfold size_pumps
    rw [if_pos hp]
  · unfold size_chillers
    rw [if_pos he]

/-- C4 witness: the amended statement at concrete non-positive inputs. -/
theorem sizers_nonpositive_witness :
    ((-1 : ℚ) ≤ 0) ∧ ((-2 : ℚ) ≤ 0) ∧ (((0 : ℚ) ≤ 0) ∨ ((5 : ℚ) ≤ 0)) ∧
    (sizeCrahSingle (-1) 10 300 (6/10) (19/20) (RedundancyConfig.make 3 1)
        = ([], 0, 0) ∧
      size_crah (-1) 10 300 (6/10) (19/20) (RedundancyConfig.make 3 1) []
        = ([], 0, 0) ∧
      size_pumps (-2) 6 30 (3/4) (19/20) (RedundancyConfig.make 3 1)
        = ([], -2, 0) ∧
      size_chillers 0 5 (RedundancyConfig.make 3 1) = ([], 0, 0)) :=
  ⟨by decide, by decide, Or.inl (by decide),
    sizers_nonpositive_amended (-1) (-2) 0 5 10 300 (6/10) (19/20) 6 30 (3/4)
      (19/20) (RedundancyConfig.make 3 1) (RedundancyConfig.make 3 1)
      (RedundancyConfig.make 3 1) (by decide) (by decide) (Or.inl (by decide))⟩

/-! Claim C1: the whitespace/row distributor. -/

/-- Length of a `flatMap` whose pieces all have the same length. -/
theorem length_flatMap_of_const {α β : Type} (l : List α) (g : α → List β)
    (m : Nat) (h : ∀ a, (g a).length = m) :
    (l.flatMap g).length = l.length * m := by
  induction l with
  | nil => simp
  | cons a t ih =>
    simp only [List.flatMap_cons, List.length_append, h, ih, List.length_cons]
    ring

/-- Sum of a map over a `flatMap` whose pieces all sum to the same value. -/
theorem sum_flatMap_of_const {α β : Type} (l : List α) (g : α → List β)
    (gq : β → ℚ) (c : ℚ) (h : ∀ a, ((g a).map gq).sum = c) :
    ((l.flatMap g).map gq).sum = (l.length : ℚ) * c := by
  induction l with
  | nil => simp
  | cons a t ih =>
    simp only [List.flatMap_cons, List.map_append, List.sum_append, h, ih,
      List.length_cons]
    push_cast
    ring

/-- The normal load stamped on an IT row by its constructor. -/
theorem ITRowUnit.make_normal (i ws : Int) (x : ℚ) :
    (ITRowUnit.make i ws x).normal_kW = max 0 x := rfl

/-- C1 counterexample: with one whitespace, row config `1+1` and IT load
`100`, two rows of `100` each are produced, so the row loads sum to `200`,
which is not within `1e-6` relative tolerance of the input load `100`. -/
theorem distribute_it_load_counterexample :
    ((distribute_it_load 100 1 (RedundancyConfig.make 1 1)).2.map
        (fun u => u.normal_kW)).sum = 200 ∧
    ¬ (|((distribute_it_load 100 1 (RedundancyConfig.make 1 1)).2.map
        (fun u => u.normal_kW)).sum - 100| ≤ (1 / 1000000) * 100) := by
  have hr2 : List.range 2 = [0, 1] := rfl
  have hr1 : List.range 1 = [0] := rfl
  have h : ((distribute_it_load 100 1 (RedundancyConfig.make 1 1)).2.map
      (fun u => u.normal_kW)).sum = 200 := by
    simp only [distribute_it_load, RedundancyConfig.make, RedundancyConfig.n_total,
      ITRowUnit.make_normal]
    norm_num [hr1, hr2]
    rw [show Int.toNat 2 = 2 from rfl, hr2]
    simp only [List.map_cons, List.map_nil, Function.comp_apply,
      ITRowUnit.make_normal, List.sum_cons, List.sum_nil]
    rw [show max (0 : ℚ) 100 = 100 from by decide]
    norm_num
  refine ⟨h, ?_⟩
  rw [h]
  norm_num

/-- C1 (amended): for IT load `L ≥ 0`, whitespace count `W ≥ 1` and a row
config with `n_required ≥ 1`, `n_extra ≥ 0`, exactly `W · n_total` row units
are produced and the sum of their `normal_kW` equals
`L · n_total / n_required` exactly — which equals `L` only when
`n_extra = 0`, because every one of the `n_total` rows (including the
redundant ones) carries `(L/W)/n_required`. -/
theorem distribute_it_load_amended (L : ℚ) (W : Int) (cfg : RedundancyConfig)
    (hL : 0 ≤ L) (hW : 1 ≤ W) (hreq : 1 ≤ cfg.n_required)
    (hextra : 0 ≤ cfg.n_extra) :
    (distribute_it_load L W cfg).2.length = W.toNat * cfg.n_total.toNat ∧
    ((distribute_it_load L W cfg).2.map (fun u => u.normal_kW)).sum
      = L * (cfg.n_total : ℚ) / (cfg.n_required : ℚ) := by
  have hWmax : max 1 W = W := max_eq_right hW
  have hLmax : max 0 L = L := max_eq_right hL
  have hd : (0 < cfg.n_required) = True := eq_true hreq
  have hW0 : (0 : Int) ≤ W := le_trans (by norm_num) hW
  have hWq : ((W.toNat : ℚ)) = ((W : ℚ)) := by
    exact_mod_cast Int.toNat_of_nonneg hW0
  have hWpos : (0 : ℚ) < (W : ℚ) := by
    exact_mod_cast lt_of_lt_of_le Int.one_pos hW
  have hreqpos : (0 : ℚ) < ((cfg.n_required : Int) : ℚ) := by
    exact_mod_cast lt_of_lt_of_le Int.one_pos hreq
  have htot : (1 : Int) ≤ cfg.n_total := by
    simp only [RedundancyConfig.n_total]
    omega
  have htot0 : (0 : Int) ≤ cfg.n_total := le_trans (by norm_num) htot
  have htotq : ((cfg.n_total.toNat : ℚ)) = ((cfg.n_total : ℚ)) := by
    exact_mod_cast Int.toNat_of_nonneg htot0
  have hlprpos : 0 ≤ L / (W : ℚ) / ((cfg.n_required : Int) : ℚ) :=
    div_nonneg (div_nonneg hL (le_of_lt hWpos)) (le_of_lt hreqpos)
  have hlpr : max 0 (L / (W : ℚ) / ((cfg.n_required : Int) : ℚ))
      = L / (W : ℚ) / ((cfg.n_required : Int) : ℚ) := max_eq_right hlprpos
  constructor
  · simp only [distribute_it_load, hd, if_true, hWmax, hLmax]
    rw [length_flatMap_of_const _ _ cfg.n_total.toNat
      (fun w => by simp)]
    simp
  · simp only [distribute_it_load, hd, if_true, hWmax, hLmax]
    rw [sum_flatMap_of_const _ _ _
      ((cfg.n_total.toNat : ℚ) * (L / (W : ℚ) / ((cfg.n_required : Int) : ℚ)))
      (fun w => by
        rw [List.map_map]
        simp only [Function.comp_def, ITRowUnit.make_normal, hlpr]
        rw [sum_map_const_q]
        simp)]
    simp only [List.length_range]
    rw [hWq, htotq]
    field_simp
    ring

/-- C1 witness: the amended statement at `L = 400`, `W = 2`, row config
`6+2` (16 rows, total row load `400·8/6`). -/
theorem distribute_it_load_witness :
    (0 : ℚ) ≤ 400 ∧ (1 : Int) ≤ 2 ∧
    ((distribute_it_load 400 2 (RedundancyConfig.make 6 2)).2.length
        = (2 : Int).toNat * ((RedundancyConfig.make 6 2).n_total).toNat ∧
      ((distribute_it_load 400 2 (RedundancyConfig.make 6 2)).2.map
          (fun u => u.normal_kW)).sum
        = 400 * (((RedundancyConfig.make 6 2).n_total : Int) : ℚ)
            / (((RedundancyConfig.make 6 2).n_required : Int) : ℚ)) :=
  ⟨by decide, by decide,
    distribute_it_load_amended 400 2 (RedundancyConfig.make 6 2) (by decide)
      (by decide) (by decide) (by decide)⟩

/-! Claim C6: `total_strings ≥ active_strings ≥ 1` on aggregates. -/

/-- C6 counterexample: on an empty unit pool `aggregate_power_strings`
returns the early all-zero aggregate, whose `active_strings = 0` violates
`active_strings ≥ 1` (and `total_strings = 0` too). -/
theorem aggregate_bounds_counterexample :
    (aggregate_power_strings [] [] [] [] (RedundancyConfig.make 3 1)
        true).active_strings = 0 ∧
    (aggregate_power_strings [] [] [] [] (RedundancyConfig.make 3 1)
        true).total_strings = 0 ∧
    ¬ (1 ≤ (aggregate_power_strings [] [] [] [] (RedundancyConfig.make 3 1)
        true).active_strings) := by decide

/-- C6 (amended): for every aggregate built from a non-empty unit pool (any
unit lists, any string redundancy config, either balance policy),
`1 ≤ active_strings ≤ total_strings`; the empty pool instead short-circuits
to the degenerate aggregate with both counts `0`. -/
theorem aggregate_strings_bounds (crah_units pump_units chiller_units it_rows :
    List PowerConsumer) (cfg : RedundancyConfig) (ab : Bool)
    (h : it_rows ++ crah_units ++ pump_units ++ chiller_units ≠ []) :
    1 ≤ (aggregate_power_strings crah_units pump_units chiller_units it_rows
        cfg ab).active_strings ∧
    (aggregate_power_strings crah_units pump_units chiller_units it_rows
        cfg ab).active_strings
      ≤ (aggregate_power_strings crah_units pump_units chiller_units it_rows
        cfg ab).total_strings := by
  have hlen : ¬ ((it_rows ++ crah_units ++ pump_units ++ chiller_units).length
      = 0) := by
    simpa [List.length_eq_zero] using h
  simp only [aggregate_power_strings, hlen, if_false]
  constructor
  · exact le_max_left 1 _
  · have h1 : (1 : Int) ≤ max (max cfg.n_total
        (maxStringId (it_rows ++ crah_units ++ pump_units ++ chiller_units))) 1 :=
      le_max_right _ 1
    set T := max (max cfg.n_total
      (maxStringId (it_rows ++ crah_units ++ pump_units ++ chiller_units))) 1
    by_cases hc : T < cfg.n_required
    · simp only [hc, if_true]
      exact max_le h1 le_rfl
    · simp only [hc, if_false]
      exact max_le h1 (le_of_not_lt hc)

/-- C6 witness: the amended bounds at a one-unit pool. -/
theorem aggregate_strings_bounds_witness :
    ([PowerConsumer.make 1 5 5 "CRAH"] ++ [] ++ [] ++ []
        ≠ ([] : List PowerConsumer)) ∧
    (1 ≤ (aggregate_power_strings [] [] []
        [PowerConsumer.make 1 5 5 "CRAH"] (RedundancyConfig.make 2 1)
        true).active_strings ∧
      (aggregate_power_strings [] [] [] [PowerConsumer.make 1 5 5 "CRAH"]
        (RedundancyConfig.make 2 1) true).active_strings
        ≤ (aggregate_power_strings [] [] [] [PowerConsumer.make 1 5 5 "CRAH"]
        (RedundancyConfig.make 2 1) true).total_strings) :=
  ⟨by decide,
    aggregate_strings_bounds [] [] [] [PowerConsumer.make 1 5 5 "CRAH"]
      (RedundancyConfig.make 2 1) true (by decide)⟩

/-! Claims C2 and C10: bucketing of the aggregate. -/

/-- Every unit's clamped bucket index lies in `[0, N_tot - 1]`. -/
theorem bucketIdx_lt (N_tot : Int) (hN : 1 ≤ N_tot) (u : PowerConsumer) :
    ∃ i : Nat, i < N_tot.toNat ∧ bucketIdx N_tot u = (i : Int) := by
  have h0 : 0 ≤ bucketIdx N_tot u := by
    unfold bucketIdx
    apply le_min
    · exact le_max_right _ 0
    · omega
  have h1 : bucketIdx N_tot u ≤ N_tot - 1 := min_le_right _ _
  refine ⟨(bucketIdx N_tot u).toNat, ?_, (Int.toNat_of_nonneg h0).symm⟩
  omega

/-- Summing the per-string normal loads of the aggregator's summaries
recovers the whole pool's normal sum. -/
theorem sum_buckets_normal (units2 : List PowerConsumer) (T : Int) (hT : 1 ≤ T)
    (capf : ℚ) :
    (((List.range T.toNat).map (fun (i : Nat) =>
        StringSummary.mk ((i : Int) + 1)
          (((bucketUnits units2 T i).map (fun u => u.normal_kW)).sum) capf
          ((bucketUnits units2 T i).map PowerConsumer.label)
          (bucketUnits units2 T i))).map
      (fun s => s.normal_load_kW)).sum
      = (units2.map (fun u => u.normal_kW)).sum := by
  rw [List.map_map]
  have hfun : ((fun s : StringSummary => s.normal_load_kW) ∘ (fun (i : Nat) =>
      StringSummary.mk ((i : Int) + 1)
        (((bucketUnits units2 T i).map (fun u => u.normal_kW)).sum) capf
        ((bucketUnits units2 T i).map PowerConsumer.label)
        (bucketUnits units2 T i)))
      = fun (i : Nat) =>
        ((bucketUnits units2 T i).map (fun u => u.normal_kW)).sum := rfl
  rw [hfun]
  simp only [bucketUnits]
  exact sum_filter_partition units2 (bucketIdx T) (fun u => u.normal_kW) T.toNat
    (fun u _ => bucketIdx_lt T hT u)

/-- C2: for every unit pool and every string redundancy configuration,
under either balance policy, the sum over all `StringSummary.normal_load_kW`
of the aggregate equals its `total_normal_kW` (exactly, hence within any
floating tolerance). -/
theorem aggregate_conservation (crah_units pump_units chiller_units it_rows :
    List PowerConsumer) (cfg : RedundancyConfig) (ab : Bool) :
    ((aggregate_power_strings crah_units pump_units chiller_units it_rows cfg
        ab).strings.map (fun s => s.normal_load_kW)).sum
      = (aggregate_power_strings crah_units pump_units chiller_units it_rows
        cfg ab).total_normal_kW := by
  by_cases hlen : (it_rows ++ crah_units ++ pump_units ++ chiller_units).length
      = 0
  · simp only [aggregate_power_strings, eq_true hlen, if_true]
    simp
  · simp only [aggregate_power_strings, hlen, if_false]
    exact sum_buckets_normal _ _ (le_max_right _ 1) _

/-- Summing the per-string member counts of the aggregator's summaries
recovers the pool size. -/
theorem sum_buckets_count (units2 : List PowerConsumer) (T : Int) (hT : 1 ≤ T)
    (capf : ℚ) :
    (((List.range T.toNat).map (fun (i : Nat) =>
        StringSummary.mk ((i : Int) + 1)
          (((bucketUnits units2 T i).map (fun u => u.normal_kW)).sum) capf
          ((bucketUnits units2 T i).map PowerConsumer.label)
          (bucketUnits units2 T i))).map
      (fun s => s.units.length)).sum = units2.length := by
  rw [List.map_map]
  have hfun : ((fun s : StringSummary => s.units.length) ∘ (fun (i : Nat) =>
      StringSummary.mk ((i : Int) + 1)
        (((bucketUnits units2 T i).map (fun u => u.normal_kW)).sum) capf
        ((bucketUnits units2 T i).map PowerConsumer.label)
        (bucketUnits units2 T i)))
      = fun (i : Nat) =>
        (((bucketUnits units2 T i).map (fun _ => (1 : Nat))).sum) := by
    funext i
    exact (sum_map_one_nat _).symm
  rw [hfun]
  simp only [bucketUnits]
  rw [sum_filter_partition units2 (bucketIdx T) (fun _ => (1 : Nat)) T.toNat
    (fun u _ => bucketIdx_lt T hT u)]
  exact sum_map_one_nat units2

/-- C10: every unit of the pool is counted in exactly one string summary —
the bucket index derived from its (possibly missing, zero, negative or
too-large) primary is clamped into range, so the `total_strings` summaries
partition the pool: their member counts sum to the pool size and every unit
belongs to one of them. -/
theorem aggregate_buckets_partition (crah_units pump_units chiller_units
    it_rows : List PowerConsumer) (cfg : RedundancyConfig) (ab : Bool) :
    (aggregate_power_strings crah_units pump_units chiller_units it_rows cfg
        ab).strings.length
      = (aggregate_power_strings crah_units pump_units chiller_units it_rows
        cfg ab).total_strings.toNat ∧
    ((aggregate_power_strings crah_units pump_units chiller_units it_rows cfg
        ab).strings.map (fun s => s.units.length)).sum
      = (aggregate_power_strings crah_units pump_units chiller_units it_rows
        cfg ab).units.length ∧
    ∀ u ∈ (aggregate_power_strings crah_units pump_units chiller_units it_rows
        cfg ab).units,
      ∃ s ∈ (aggregate_power_strings crah_units pump_units chiller_units
        it_rows cfg ab).strings, u ∈ s.units := by
  by_cases hlen : (it_rows ++ crah_units ++ pump_units ++ chiller_units).length
      = 0
  · simp only [aggregate_power_strings, eq_true hlen, if_true]
    simp
  · simp only [aggregate_power_strings, hlen, if_false]
    refine ⟨by simp, sum_buckets_count _ _ (le_max_right _ 1) _, ?_⟩
    intro u hu
    obtain ⟨i, hi, hbi⟩ := bucketIdx_lt _ (le_max_right _ 1) u
    refine ⟨_, List.mem_map_of_mem _ (List.mem_range.mpr hi), ?_⟩
    show u ∈ bucketUnits _ _ i
    simp only [bucketUnits, List.mem_filter]
    exact ⟨hu, by simpa using hbi⟩

/-! Claim C3: conservation in the failure simulator. -/

/-- Applying `assocAdd` leaves the dict's key list unchanged. -/
theorem assocAdd_map_fst (l : List (Int × ℚ)) (k : Int) (x : ℚ) :
    (assocAdd l k x).map Prod.fst = l.map Prod.fst := by
  induction l with
  | nil => rfl
  | cons p rest ih =>
    simp only [assocAdd]
    by_cases h : p.1 = k
    · simp [h]
    · simp [h, ih]

/-- Applying `assocAdd` on a present key adds exactly `x` to the values' sum. -/
theorem assocAdd_sum_snd (l : List (Int × ℚ)) (k : Int) (x : ℚ)
    (h : hasKey l k = true) :
    ((assocAdd l k x).map Prod.snd).sum = (l.map Prod.snd).sum + x := by
  induction l with
  | nil => simp [hasKey] at h
  | cons p rest ih =>
    simp only [assocAdd]
    by_cases hp : p.1 = k
    · simp only [hp, if_true, List.map_cons, List.sum_cons]
      ring
    · have h' : hasKey rest k = true := by
        simp only [hasKey, List.any_cons, decide_eq_true_eq, hp,
          Bool.false_or] at h ⊢
        simpa using h
      simp only [hp, if_false, List.map_cons, List.sum_cons, ih h']
      ring

/-- One simulator step preserves the running balance: survivor loads plus
lost loads grow by exactly the unit's `normal_kW`. -/
theorem failStep_step_sum (failed : Int) (survivors : List Int)
    (st : List (Int × ℚ) × List PowerConsumer × List PowerConsumer)
    (u : PowerConsumer) :
    (((failStep failed survivors st u).1.map Prod.snd).sum
        + (((failStep failed survivors st u).2.1).map
          (fun v => v.normal_kW)).sum)
      = ((st.1.map Prod.snd).sum
          + ((st.2.1).map (fun v => v.normal_kW)).sum) + u.normal_kW := by
  simp only [failStep]
  split
  · rename_i t ht
    by_cases hk : hasKey st.1 t = true
    · simp only [hk, if_true]
      rw [assocAdd_sum_snd st.1 t u.normal_kW hk]
      ring
    · simp only [hk, if_false, List.map_append, List.sum_append]
      simp
      ring
  · simp only [List.map_append, List.sum_append]
    simp
    ring

/-- Running balance of the whole simulator loop. -/
theorem failStep_fold_sum (failed : Int) (survivors : List Int)
    (units : List PowerConsumer) :
    ∀ st : List (Int × ℚ) × List PowerConsumer × List PowerConsumer,
    (((units.foldl (failStep failed survivors) st).1.map Prod.snd).sum
        + (((units.foldl (failStep failed survivors) st).2.1).map
          (fun v => v.normal_kW)).sum)
      = ((st.1.map Prod.snd).sum + ((st.2.1).map (fun v => v.normal_kW)).sum)
          + ((units.map (fun v => v.normal_kW)).sum) := by
  induction units with
  | nil => intro st; simp
  | cons u rest ih =>
    intro st
    rw [List.foldl_cons, ih (failStep failed survivors st u)]
    rw [failStep_step_sum]
    simp only [List.map_cons, List.sum_cons]
    ring

/-- C3: for a failed-string index inside `[1, total_strings]` and an
aggregate whose `total_normal_kW` is the sum of its units' normal loads (as
every aggregate built by `aggregate_power_strings` satisfies), the
simulator's redistributed survivor loads plus the loads of the lost units
sum to `total_normal_kW`. -/
theorem failure_conservation (agg : PowerStringAggregate) (failed : Int)
    (h1 : 1 ≤ failed) (h2 : failed ≤ agg.total_strings)
    (htot : agg.total_normal_kW = (agg.units.map (fun u => u.normal_kW)).sum) :
    ∃ r, (_simulate_string_failure agg failed).1 = FailureOutcome.result r ∧
      (r.redistributed_normal_kW.map Prod.snd).sum
        + (r.lost_raw.map (fun u => u.normal_kW)).sum
        = agg.total_normal_kW := by
  have hcond : ¬ (failed < 1 ∨ agg.total_strings < failed) := by omega
  simp only [_simulate_string_failure, hcond, if_false]
  refine ⟨_, rfl, ?_⟩
  rw [failStep_fold_sum]
  rw [htot]
  have hinit : ((((List.range agg.total_strings.toNat).filterMap
      (fun (i : Nat) =>
        if (i : Int) + 1 ≠ failed then some ((i : Int) + 1)
        else Option.none)).map (fun sid => (sid, (0 : ℚ)))).map Prod.snd).sum
      = 0 := by
    rw [List.map_map]
    have : (Prod.snd ∘ fun (sid : Int) => (sid, (0 : ℚ)))
        = fun (_ : Int) => (0 : ℚ) := rfl
    rw [this, sum_map_const_q]
    ring
  rw [hinit]
  simp

/-- Concrete aggregate for the conservation witness: two units with normal
loads `5` and `3` on strings `1` and `2`. -/
def sampleAggregate : PowerStringAggregate :=
  PowerStringAggregate.mk [] 8 8 [] [] (RedundancyConfig.mk 1 0) 2 1
    [PowerConsumer.mk 1 5 5 "CRAH" (some 1) Option.none Option.none Option.none,
     PowerConsumer.mk 2 3 3 "PUMP" (some 2) Option.none Option.none Option.none]

/-- C3 witness: conservation on `sampleAggregate` when string `1` fails. -/
theorem failure_conservation_witness :
    (1 : Int) ≤ 1 ∧ (1 : Int) ≤ sampleAggregate.total_strings ∧
    sampleAggregate.total_normal_kW
      = (sampleAggregate.units.map (fun u => u.normal_kW)).sum ∧
    (∃ r, (_simulate_string_failure sampleAggregate 1).1
        = FailureOutcome.result r ∧
      (r.redistributed_normal_kW.map Prod.snd).sum
        + (r.lost_raw.map (fun u => u.normal_kW)).sum
        = sampleAggregate.total_normal_kW) :=
  ⟨le_refl 1, by decide, by norm_num [sampleAggregate],
    failure_conservation sampleAggregate 1 (by decide) (by decide)
      (by norm_num [sampleAggregate])⟩

/-! Claim C9: the simulator and the report builder are read-only. -/

/-- The simulator's loop emits every traversed unit back unchanged. -/
theorem failStep_fold_seen (failed : Int) (survivors : List Int)
    (units : List PowerConsumer) :
    ∀ st : List (Int × ℚ) × List PowerConsumer × List PowerConsumer,
    ((units.foldl (failStep failed survivors) st).2.2) = st.2.2 ++ units := by
  induction units with
  | nil => intro st; simp
  | cons u rest ih =>
    intro st
    rw [List.foldl_cons, ih]
    have hstep : (failStep failed survivors st u).2.2 = st.2.2 ++ [u] := by
      simp only [failStep]
      split
      · rename_i t ht
        by_cases hk : hasKey st.1 t = true
        · simp [hk]
        · simp [hk]
      · rfl
    rw [hstep]
    simp

/-- The report builder's inner loop emits every traversed unit back
unchanged. -/
theorem reportRowOf_fold_units (l : List PowerConsumer) :
    ∀ acc : List UnitSummary × List PowerConsumer,
    (l.foldl (fun acc unit =>
      (acc.1 ++ [UnitSummary.mk unit.label unit.kind unit.id unit.normal_kW
        unit.peak_kW (_component_capacity unit) unit.whitespace_id],
       acc.2 ++ [unit])) acc).2 = acc.2 ++ l := by
  induction l with
  | nil => intro acc; simp
  | cons u rest ih =>
    intro acc
    rw [List.foldl_cons, ih]
    simp

/-- A report row's echoed summary is the summary itself. -/
theorem reportRowOf_snd (s : StringSummary) : (reportRowOf s).2 = s := by
  simp only [reportRowOf]
  rw [reportRowOf_fold_units]
  cases s
  simp

/-- Echoing every summary through `reportRowOf` is the identity. -/
theorem map_reportRowOf_snd (l : List StringSummary) :
    l.map (fun s => (reportRowOf s).2) = l := by
  induction l with
  | nil => rfl
  | cons s rest ih => simp [reportRowOf_snd, ih]

/-- The report builder's outer loop echoes the traversed summaries. -/
theorem report_fold_snd (summaries : List StringSummary) :
    ∀ acc : List StringReportRow × List StringSummary,
    (summaries.foldl (fun acc summary =>
      let rs := reportRowOf summary
      (acc.1 ++ [rs.1], acc.2 ++ [rs.2])) acc).2
      = acc.2 ++ summaries.map (fun s => (reportRowOf s).2) := by
  induction summaries with
  | nil => intro acc; simp
  | cons s rest ih =>
    intro acc
    rw [List.foldl_cons, ih]
    simp

/-- C9: simulating a string failure and building a report are read-only:
for every aggregate and every failed-string index (also a missing one for
the report), the unit pool traversed by `_simulate_string_failure` comes
back unchanged and `build_power_string_report` re-assembles exactly the
input aggregate — every field of the aggregate and of its units, including
`primary_string` and `secondary_string`, is left as it was. -/
theorem simulate_report_read_only (agg : PowerStringAggregate) (failed : Int)
    (failedOpt : Option Int) :
    (_simulate_string_failure agg failed).2 = agg.units ∧
    (build_power_string_report agg failedOpt).2 = agg := by
  constructor
  · simp only [_simulate_string_failure]
    split
    · rfl
    · rw [failStep_fold_seen]
      simp
  · simp only [build_power_string_report]
    rw [report_fold_snd, map_reportRowOf_snd]
    cases agg
    simp

/-! Claim C7: secondary feeds assigned by `assign_dual_feeds`. -/

/-- C7 counterexample: with a single string (`N_strings = 1`) on a non-empty
pool, the excess unit is given a secondary feed equal to its primary
(`(0 + 1) % 1 + 1 = 1`), contradicting the claim that an assigned secondary
always differs from the primary. -/
theorem dual_feeds_counterexample :
    ((assign_dual_feeds [PowerConsumer.make 1 5 5 "CRAH"] 1 1).1.map
      (fun u => (u.primary_string, u.secondary_string)))
      = [(some 1, some 1)] := by decide

/-- A unit's secondary, when present, was installed by the dual-feed loop:
it points to the string after the unit's own primary, wrapping modulo
`N`. -/
def secOk (N : Int) (u : PowerConsumer) : Prop :=
  ∀ t, u.secondary_string = some t →
    ∃ s : Nat, s < N.toNat ∧ u.primary_string = some ((s : Int) + 1) ∧
      t = ((s : Int) + 1) % N + 1

/-- Function `setSecondaries` for bucket `s` preserves `secOk`. -/
theorem setSecondaries_secOk (N : Int) (s : Nat) (hs : s < N.toNat)
    (l : List PowerConsumer) :
    ∀ k, (∀ u ∈ l, secOk N u) →
    ∀ u ∈ setSecondaries (((s : Int) + 1) % N + 1) ((s : Int) + 1) k l,
      secOk N u := by
  induction l with
  | nil =>
    intro k _ u hu
    simp [setSecondaries] at hu
  | cons v rest ih =>
    intro k hl u hu
    simp only [setSecondaries] at hu
    by_cases hcond : 0 < k ∧ v.primary_string = some ((s : Int) + 1)
        ∧ v.secondary_string = Option.none
    · rw [if_pos hcond] at hu
      rcases List.mem_cons.mp hu with h | h
      · subst h
        intro t ht
        simp only at ht
        refine ⟨s, hs, ?_, ?_⟩
        · simpa using hcond.2.1
        · simpa using ht.symm
      · exact ih (k - 1) (fun w hw => hl w (List.mem_cons_of_mem v hw)) u h
    · rw [if_neg hcond] at hu
      rcases List.mem_cons.mp hu with h | h
      · rw [h]
        exact hl v (List.mem_cons_self v rest)
      · exact ih k (fun w hw => hl w (List.mem_cons_of_mem v hw)) u h

/-- One dual-feed loop iteration preserves `secOk`. -/
theorem dualStep_secOk (N L_max : Int) (s : Nat) (hs : s < N.toNat)
    (cur : List PowerConsumer) (h : ∀ u ∈ cur, secOk N u) :
    ∀ u ∈ dualStep N L_max cur s, secOk N u := by
  simp only [dualStep]
  split
  · exact setSecondaries_secOk N s hs cur _ h
  · exact h

/-- The whole dual-feed loop preserves `secOk`. -/
theorem dual_fold_secOk (N L_max : Int) (ss : List Nat)
    (hss : ∀ s ∈ ss, s < N.toNat) :
    ∀ cur : List PowerConsumer, (∀ u ∈ cur, secOk N u) →
    ∀ u ∈ ss.foldl (dualStep N L_max) cur, secOk N u := by
  induction ss with
  | nil =>
    intro cur h u hu
    exact h u (by simpa using hu)
  | cons s rest ih =>
    intro cur h u hu
    rw [List.foldl_cons] at hu
    exact ih (fun x hx => hss x (List.mem_cons_of_mem _ hx))
      (dualStep N L_max cur s)
      (dualStep_secOk N L_max s (hss s (List.mem_cons_self s rest)) cur h) u hu

/-- Every unit of the round-robin base assignment has no secondary, so
`secOk` holds vacuously. -/
theorem base_secOk (units : List PowerConsumer) (N : Int) :
    ∀ u ∈ units.mapIdx (fun i u => { u with
        primary_string := some ((i : Int) % N + 1)
        secondary_string := Option.none }), secOk N u := by
  intro u hu
  rw [List.mem_mapIdx] at hu
  obtain ⟨i, hi, heq⟩ := hu
  intro t ht
  rw [← heq] at ht
  simp at ht

/-- C7 (amended): for a non-empty pool and `N_strings ≥ 2`, every unit that
`assign_dual_feeds` gives a secondary feed has a secondary that differs from
its primary and lies in `[1, N_strings]`.  (With `N_strings = 1` the wrap
`(s+1) % 1 + 1` makes the assigned secondary equal to the primary, both
`1`.) -/
theorem dual_feeds_amended (units : List PowerConsumer) (N_strings N_req : Int)
    (hne : units ≠ []) (hN : 2 ≤ N_strings) :
    ∀ u ∈ (assign_dual_feeds units N_strings N_req).1, ∀ t,
      u.secondary_string = some t →
        u.primary_string ≠ some t ∧ 1 ≤ t ∧ t ≤ N_strings := by
  have hN0 : ¬ (N_strings = 0) := by omega
  have hlen : ¬ (units.length = 0 ∨ N_strings = 0) := by
    simp [List.length_eq_zero, hne, hN0]
  simp only [assign_dual_feeds, hlen, if_false]
  intro u hu t ht
  have hok : secOk N_strings u :=
    dual_fold_secOk N_strings (max 0 ((units.length : Int) - N_req))
      (List.range N_strings.toNat) (fun s hs => List.mem_range.mp hs)
      _ (base_secOk units N_strings) u hu
  obtain ⟨s, hs, hp, htv⟩ := hok t ht
  have hNpos : (0 : Int) < N_strings := by omega
  have hmod0 : 0 ≤ ((s : Int) + 1) % N_strings :=
    Int.emod_nonneg _ (by omega)
  have hmodlt : ((s : Int) + 1) % N_strings < N_strings :=
    Int.emod_lt_of_pos _ hNpos
  refine ⟨?_, by omega, by omega⟩
  intro hpe
  have hst : (s : Int) + 1 = t := by
    have := hp.symm.trans hpe
    simpa using this
  have heq : ((s : Int) + 1) % N_strings = (s : Int) := by omega
  have hsle : (s : Int) + 1 ≤ N_strings := by omega
  rcases lt_or_eq_of_le hsle with hlt | heqN
  · rw [Int.emod_eq_of_lt (by omega) hlt] at heq
    omega
  · rw [heqN, Int.emod_self] at heq
    omega

/-- C7 witness: one unit, two strings, `N_req = 1`: the unit gets secondary
`2` next to primary `1`, which is distinct and in range. -/
theorem dual_feeds_witness :
    ([PowerConsumer.make 1 5 5 "CRAH"] ≠ ([] : List PowerConsumer)) ∧
    ((2 : Int) ≤ 2) ∧
    (PowerConsumer.mk 1 5 5 "CRAH" (some 1) (some 2) Option.none Option.none
      ∈ (assign_dual_feeds [PowerConsumer.make 1 5 5 "CRAH"] 2 1).1) ∧
    ((PowerConsumer.mk 1 5 5 "CRAH" (some 1) (some 2) Option.none
      Option.none).secondary_string = some 2) ∧
    ((PowerConsumer.mk 1 5 5 "CRAH" (some 1) (some 2) Option.none
        Option.none).primary_string ≠ some 2 ∧
      (1 : Int) ≤ 2 ∧ (2 : Int) ≤ 2) :=
  ⟨by decide, by decide, by decide, by decide,
    dual_feeds_amended [PowerConsumer.make 1 5 5 "CRAH"] 2 1 (by decide)
      (by decide) _ (by decide) 2 (by decide)⟩

/-! Claim C5: spread bound of the auto-balance policy. -/

/-- Per-string primary normal load: the sum of `normal_kW` over the units
whose primary string is `s`. -/
def stringLoad (units : List PowerConsumer) (s : Int) : ℚ :=
  ((units.filter (fun u => decide (u.primary_string = some s))).map
    (fun u => u.normal_kW)).sum

/-- The largest `normal_kW` in the pool (`0` for an empty pool). -/
def maxNormal (units : List PowerConsumer) : ℚ :=
  units.foldr (fun u m => max u.normal_kW m) 0

/-- Every unit's normal load is bounded by `maxNormal`. -/
theorem le_maxNormal (units : List PowerConsumer) :
    ∀ u ∈ units, u.normal_kW ≤ maxNormal units := by
  induction units with
  | nil => simp
  | cons v rest ih =>
    intro u hu
    rcases List.mem_cons.mp hu with h | h
    · rw [h]
      exact le_max_left _ _
    · exact le_trans (ih u h) (le_max_right _ _)

/-- The value `maxNormal` is non-negative. -/
theorem maxNormal_nonneg (units : List PowerConsumer) : 0 ≤ maxNormal units := by
  induction units with
  | nil => exact le_refl 0
  | cons v rest ih => exact le_trans ih (le_max_right _ _)

/-- Members of an insertion are the inserted element or old members. -/
theorem mem_insertByNormalDesc (u v : PowerConsumer) (l : List PowerConsumer) :
    v ∈ insertByNormalDesc u l → v = u ∨ v ∈ l := by
  induction l with
  | nil =>
    intro h
    simpa [insertByNormalDesc] using h
  | cons w rest ih =>
    intro h
    simp only [insertByNormalDesc] at h
    by_cases hc : w.normal_kW < u.normal_kW
    · rw [if_pos hc] at h
      rcases List.mem_cons.mp h with h1 | h1
      · exact Or.inl h1
      · exact Or.inr h1
    · rw [if_neg hc] at h
      rcases List.mem_cons.mp h with h1 | h1
      · exact Or.inr (by rw [h1]; exact List.mem_cons_self w rest)
      · rcases ih h1 with h2 | h2
        · exact Or.inl h2
        · exact Or.inr (List.mem_cons_of_mem w h2)

/-- The sorted pool has no new members. -/
theorem mem_sortByNormalDesc (l : List PowerConsumer) :
    ∀ v ∈ sortByNormalDesc l, v ∈ l := by
  induction l with
  | nil =>
    intro v hv
    simpa [sortByNormalDesc] using hv
  | cons u rest ih =>
    intro v hv
    have hrw : sortByNormalDesc (u :: rest)
        = insertByNormalDesc u (sortByNormalDesc rest) := rfl
    rw [hrw] at hv
    rcases mem_insertByNormalDesc u v _ hv with h | h
    · rw [h]
      exact List.mem_cons_self u rest
    · exact List.mem_cons_of_mem u (ih v h)

/-- Behaviour of the argmin scan: it either keeps the incoming best (and the
incoming value bounds the whole remaining list) or returns the offset of a
remaining entry that is strictly below the incoming value and minimal among
the remaining entries. -/
theorem argminIdxAux_spec (l : List ℚ) :
    ∀ (best i : Nat) (v : ℚ),
    (argminIdxAux l best v i = best ∧ ∀ k, k < l.length → v ≤ l.getD k 0) ∨
    (∃ k, k < l.length ∧ argminIdxAux l best v i = i + k ∧ l.getD k 0 < v ∧
      ∀ k2, k2 < l.length → l.getD k 0 ≤ l.getD k2 0) := by
  induction l with
  | nil =>
    intro best i v
    exact Or.inl ⟨rfl, by simp⟩
  | cons x rest ih =>
    intro best i v
    simp only [argminIdxAux]
    by_cases hc : x < v
    · rw [if_pos hc]
      rcases ih i (i + 1) x with ⟨h1, h2⟩ | ⟨k, hk, h1, h2, h3⟩
      · refine Or.inr ⟨0, by simp, ?_, by simpa using hc, ?_⟩
        · rw [h1]
          omega
        · intro k2 hk2
          cases k2 with
          | zero => simp
          | succ k2' =>
            simpa using h2 k2' (by simpa using hk2)
      · refine Or.inr ⟨k + 1, by simpa using hk, ?_, ?_, ?_⟩
        · rw [h1]
          omega
        · simpa using lt_trans h2 hc
        · intro k2 hk2
          cases k2 with
          | zero => simpa using le_of_lt h2
          | succ k2' =>
            simpa using h3 k2' (by simpa using hk2)
    · rw [if_neg hc]
      rcases ih best (i + 1) v with ⟨h1, h2⟩ | ⟨k, hk, h1, h2, h3⟩
      · refine Or.inl ⟨h1, ?_⟩
        intro k hk
        cases k with
        | zero => simpa using le_of_not_lt hc
        | succ k' => simpa using h2 k' (by simpa using hk)
      · refine Or.inr ⟨k + 1, by simpa using hk, ?_, by simpa using h2, ?_⟩
        · rw [h1]
          omega
        · intro k2 hk2
          cases k2 with
          | zero =>
            simpa using le_of_lt (lt_of_lt_of_le h2 (le_of_not_lt hc))
          | succ k2' =>
            simpa using h3 k2' (by simpa using hk2)

/-- The argmin of a non-empty load vector is a valid index. -/
theorem argminIdx_lt (l : List ℚ) (hl : l ≠ []) : argminIdx l < l.length := by
  cases l with
  | nil => exact absurd rfl hl
  | cons x rest =>
    simp only [argminIdx]
    rcases argminIdxAux_spec rest 0 1 x with ⟨h1, _⟩ | ⟨k, hk, h1, _, _⟩
    · rw [h1]
      simp
    · rw [h1]
      simp only [List.length_cons]
      omega

/-- The argmin entry is a lower bound for every entry. -/
theorem argminIdx_min (l : List ℚ) :
    ∀ j, j < l.length → l.getD (argminIdx l) 0 ≤ l.getD j 0 := by
  cases l with
  | nil =>
    intro j hj
    simp at hj
  | cons x rest =>
    intro j hj
    simp only [argminIdx]
    rcases argminIdxAux_spec rest 0 1 x with ⟨h1, h2⟩ | ⟨k, hk, h1, h2, h3⟩
    · rw [h1]
      cases j with
      | zero => simp
      | succ j' => simpa using h2 j' (by simpa using hj)
    · rw [h1]
      have hidx : (x :: rest).getD (1 + k) 0 = rest.getD k 0 := by
        rw [Nat.add_comm]
        exact List.getD_cons_succ
      rw [hidx]
      cases j with
      | zero => simpa using le_of_lt h2
      | succ j' => simpa using h3 j' (by simpa using hj)

/-- Lemma: `getD` of `set` at the written index. -/
theorem getD_set_self_q (l : List ℚ) (i : Nat) (v : ℚ) (h : i < l.length) :
    (l.set i v).getD i 0 = v := by
  rw [List.getD_eq_getElem?_getD, List.getElem?_set_self h]
  rfl

/-- Lemma: `getD` of `set` away from the written index. -/
theorem getD_set_ne_q (l : List ℚ) (i j : Nat) (v : ℚ) (h : i ≠ j) :
    (l.set i v).getD j 0 = l.getD j 0 := by
  rw [List.getD_eq_getElem?_getD, List.getElem?_set_ne h,
    ← List.getD_eq_getElem?_getD]

/-- Every read of the all-zero load vector gives `0`. -/
theorem getD_replicate_zero (a j : Nat) :
    (List.replicate a (0 : ℚ)).getD j 0 = 0 := by
  induction a generalizing j with
  | zero => simp
  | succ a ih =>
    cases j with
    | zero => simp
    | succ j' => simpa [List.replicate_succ] using ih j'

/-- Appending a unit assigned to string `s` adds its load to that string. -/
theorem stringLoad_append_match (l : List PowerConsumer) (u : PowerConsumer)
    (s : Int) (h : u.primary_string = some s) :
    stringLoad (l ++ [u]) s = stringLoad l s + u.normal_kW := by
  simp only [stringLoad, List.filter_append, List.map_append, List.sum_append]
  simp [List.filter_cons, h]

/-- Appending a unit assigned elsewhere leaves a string's load unchanged. -/
theorem stringLoad_append_nomatch (l : List PowerConsumer) (u : PowerConsumer)
    (s : Int) (h : ¬ u.primary_string = some s) :
    stringLoad (l ++ [u]) s = stringLoad l s := by
  simp only [stringLoad, List.filter_append, List.map_append, List.sum_append]
  simp [List.filter_cons, h]

/-- Invariant of the greedy balance loop: the load vector keeps its length,
each entry equals the per-string load of the units assigned so far, and no
entry exceeds the least entry by more than `M`, a bound on the normal loads
being placed. -/
theorem balStep_fold_invariant (a : Nat) (M : ℚ) (l : List PowerConsumer)
    (hl : ∀ u ∈ l, 0 ≤ u.normal_kW ∧ u.normal_kW ≤ M) :
    ∀ st : List ℚ × List PowerConsumer,
    st.1.length = a →
    (∀ j, j < a → st.1.getD j 0 = stringLoad st.2 ((j : Int) + 1)) →
    (∀ j, j < a → st.1.getD j 0 ≤ st.1.getD (argminIdx st.1) 0 + M) →
    ((l.foldl balStep st).1.length = a ∧
     (∀ j, j < a → (l.foldl balStep st).1.getD j 0
        = stringLoad (l.foldl balStep st).2 ((j : Int) + 1)) ∧
     (∀ j, j < a → (l.foldl balStep st).1.getD j 0
        ≤ (l.foldl balStep st).1.getD (argminIdx (l.foldl balStep st).1) 0
          + M)) := by
  induction l with
  | nil =>
    intro st h1 h2 h3
    exact ⟨h1, h2, h3⟩
  | cons u rest ih =>
    intro st h1 h2 h3
    rw [List.foldl_cons]
    have hx := hl u (List.mem_cons_self u rest)
    refine ih (fun w hw => hl w (List.mem_cons_of_mem u hw)) (balStep st u)
      ?_ ?_ ?_
    · simp only [balStep]
      rw [List.length_set]
      exact h1
    · intro j hj
      have hne : st.1 ≠ [] := by
        intro hemp
        rw [hemp] at h1
        simp at h1
        omega
      have hm : argminIdx st.1 < a := h1 ▸ argminIdx_lt st.1 hne
      simp only [balStep]
      by_cases hjm : j = argminIdx st.1
      · rw [hjm]
        rw [getD_set_self_q _ _ _ (by rw [h1]; exact hm)]
        rw [stringLoad_append_match _ _ _ (by simp)]
        rw [h2 _ hm]
      · rw [getD_set_ne_q _ _ _ _ (fun h => hjm h.symm)]
        rw [stringLoad_append_nomatch _ _ _ (by
          simp only [Option.some.injEq]
          intro hcontra
          exact hjm (by omega))]
        exact h2 j hj
    · intro j hj
      have hne : st.1 ≠ [] := by
        intro hemp
        rw [hemp] at h1
        simp at h1
        omega
      have hm : argminIdx st.1 < a := h1 ▸ argminIdx_lt st.1 hne
      simp only [balStep]
      have hlen' : (st.1.set (argminIdx st.1)
          (st.1.getD (argminIdx st.1) 0 + u.normal_kW)).length = a := by
        rw [List.length_set]
        exact h1
      have hne' : st.1.set (argminIdx st.1)
          (st.1.getD (argminIdx st.1) 0 + u.normal_kW) ≠ [] := by
        intro hemp
        rw [hemp] at hlen'
        simp at hlen'
        omega
      have hm' := argminIdx_lt _ hne'
      rw [hlen'] at hm'
      have hminle : st.1.getD (argminIdx st.1) 0
          ≤ (st.1.set (argminIdx st.1)
            (st.1.getD (argminIdx st.1) 0 + u.normal_kW)).getD
            (argminIdx (st.1.set (argminIdx st.1)
              (st.1.getD (argminIdx st.1) 0 + u.normal_kW))) 0 := by
        by_cases hmm : argminIdx (st.1.set (argminIdx st.1)
            (st.1.getD (argminIdx st.1) 0 + u.normal_kW)) = argminIdx st.1
        · rw [hmm, getD_set_self_q _ _ _ (by rw [h1]; exact hm)]
          linarith [hx.1]
        · rw [getD_set_ne_q _ _ _ _ (fun h => hmm h.symm)]
          exact argminIdx_min st.1 _ (by rw [h1]; exact hm')
      by_cases hjm : j = argminIdx st.1
      · rw [hjm, getD_set_self_q _ _ _ (by rw [h1]; exact hm)]
        have := hx.2
        linarith
      · rw [getD_set_ne_q _ _ _ _ (fun h => hjm h.symm)]
        have hold := h3 j hj
        linarith

/-- C5: after the auto-balance pass on any unit pool with non-negative
normal loads and `active_strings ≥ 1`, the per-string primary loads of any
two active strings differ by at most the largest `normal_kW` in the pool
(the greedy longest-processing-time bound). -/
theorem balance_spread_bound (units : List PowerConsumer)
    (active_strings : Int) (i j : Nat) (ha : 1 ≤ active_strings)
    (hnn : ∀ u ∈ units, 0 ≤ u.normal_kW)
    (hi : i < (max 1 active_strings).toNat)
    (hj : j < (max 1 active_strings).toNat) :
    stringLoad (_balance_primary_strings units active_strings).2 ((i : Int) + 1)
      - stringLoad (_balance_primary_strings units active_strings).2
        ((j : Int) + 1)
      ≤ maxNormal units := by
  simp only [_balance_primary_strings]
  obtain ⟨hlen, hchar, hbound⟩ := balStep_fold_invariant
    ((max 1 active_strings).toNat) (maxNormal units) (sortByNormalDesc units)
    (fun w hw => ⟨hnn w (mem_sortByNormalDesc units w hw),
      le_maxNormal units w (mem_sortByNormalDesc units w hw)⟩)
    (List.replicate ((max 1 active_strings).toNat) 0, ([] : List PowerConsumer))
    (by simp)
    (fun k hk => by simp [getD_replicate_zero, stringLoad])
    (fun k hk => by
      simp only [getD_replicate_zero]
      simpa using maxNormal_nonneg units)
  rw [← hchar i hi, ← hchar j hj]
  have hb := hbound i hi
  have hmn := argminIdx_min ((sortByNormalDesc units).foldl balStep
    (List.replicate ((max 1 active_strings).toNat) 0, [])).1 j
    (by rw [hlen]; exact hj)
  linarith

/-- Pool for the spread-bound witness: units with normal loads `5` and `3`. -/
def samplePool : List PowerConsumer :=
  [PowerConsumer.mk 1 5 5 "CRAH" Option.none Option.none Option.none
    Option.none,
   PowerConsumer.mk 2 3 3 "PUMP" Option.none Option.none Option.none
    Option.none]

/-- C5 witness: the spread bound on `samplePool` with two active strings. -/
theorem balance_spread_bound_witness :
    (1 : Int) ≤ 2 ∧ (∀ u ∈ samplePool, 0 ≤ u.normal_kW) ∧
    (0 : Nat) < (max 1 (2 : Int)).toNat ∧ (1 : Nat) < (max 1 (2 : Int)).toNat ∧
    stringLoad (_balance_primary_strings samplePool 2).2
        (((0 : Nat) : Int) + 1)
      - stringLoad (_balance_primary_strings samplePool 2).2
        (((1 : Nat) : Int) + 1)
      ≤ maxNormal samplePool :=
  ⟨by decide, by decide, by decide, by decide,
    balance_spread_bound samplePool 2 0 1 (by decide) (by decide) (by decide)
      (by decide)⟩
